import Mathlib

/-!
Shallow embedding of `main.py` of the picanha-prices repository: a batch
pipeline that fetches product listings (`scrape_prices`), persists a CSV
ledger (`step_1`), aggregates prices per product (`step_2`), renders charts
(`plot_graph`) and builds an HTML gallery (`create_html_for_png_files`).

Strings are modelled by Lean `String`/`List Char`; Python exceptions by
`Except`/`Option`; the HTTP layer by an explicit `FetchResult` value; file
state by the list of data rows currently in the CSV file.
-/

namespace Picanha

/-! ### Python string primitives used by the pipeline -/

/-- Whitespace recognised by Python `str.strip()` / `float()`. -/
def isWs (c : Char) : Bool :=
  c == ' ' || c == '\t' || c == '\n' || c == '\x0d' || c == '\x0b' || c == '\x0c'

/-- Python `s.strip()` on the character list: drop whitespace from both ends. -/
def pystripChars (l : List Char) : List Char :=
  ((l.dropWhile isWs).reverse.dropWhile isWs).reverse

/-- Python `s.strip()` for `String`. -/
def pystrip (s : String) : String := ⟨pystripChars s.data⟩

/-- Python `s.replace(',', '')`: the single-character pattern makes this a
filter removing every comma. -/
def removeCommas (l : List Char) : List Char := l.filter (fun c => !(c == ','))

/-! ### Fetcher (`scrape_prices`, main.py lines 15-30) -/

/-- A scraped product container: the stripped-to-be texts of the name,
price and brand elements found inside one matched `div`. -/
structure RawProduct where
  nameText : String
  priceText : String
  brandText : String
deriving DecidableEq, Repr

/-- Outcome of `requests.get(url)` as seen by `scrape_prices`: either the
request raises a `RequestException` at the network layer, or an HTTP
response with a status code arrives whose parsed body yields a list of
product containers. -/
inductive FetchResult where
  | netError (msg : String)
  | response (status : Nat) (products : List RawProduct)
deriving DecidableEq, Repr

/-- `response.raise_for_status()` raises `requests.exceptions.HTTPError`
exactly for status codes 400-599 (client and server errors). -/
def raisesForStatus (status : Nat) : Bool := 400 ≤ status && status < 600

/-- The price normalisation applied at main.py lines 23-24:
`price = element.text.strip()` then `price = price.replace(',', '')`. -/
def emitPrice (raw : String) : String := ⟨removeCommas (pystripChars raw.data)⟩

/-- The `try`-block body of `scrape_prices`: raise (`Except.error`) on a
network error or on a 4xx/5xx status, otherwise emit one
`[name, price, brand]` row per matched container, with name and brand
stripped and the price stripped and comma-free. -/
def scrapeBody (r : FetchResult) : Except String (List (List String)) :=
  match r with
  | .netError msg => .error msg
  | .response status products =>
    if raisesForStatus status then
      .error ("HTTPError " ++ toString status)
    else
      .ok (products.map fun p => [pystrip p.nameText, emitPrice p.priceText, pystrip p.brandText])

/-- `scrape_prices(url)`: run the body; on any `RequestException` log one
`logging.error` line and return the empty row list. The result is the pair
(returned rows, log lines written); the function is total, so no exception
escapes it. -/
def scrape_prices (url : String) (r : FetchResult) : List (List String) × List String :=
  match scrapeBody r with
  | .error e => ([], ["Error scraping " ++ url ++ ": " ++ e])
  | .ok rows => (rows, [])

/-- A fetch fails when the GET raises at the network layer or the response
status is a 4xx/5xx error. -/
def fetchFails (r : FetchResult) : Prop :=
  match r with
  | .netError _ => True
  | .response status _ => raisesForStatus status = true

instance : DecidablePred fetchFails := by
  intro r
  unfold fetchFails
  cases r <;> infer_instance

/-- The per-URL loop of `step_1` (main.py lines 42-45): scrape each URL and
tag each returned row with today's date. A URL whose fetch failed
contributes no rows and the loop moves on to the remaining URLs. -/
def consolidate (fetches : List (String × FetchResult)) (today : String) : List (List String) :=
  fetches.flatMap fun uf => ((scrape_prices uf.1 uf.2).1).map (fun d => d ++ [today])

/-! ### Ledger writer (`step_1`, main.py lines 32-60) -/

/-- Keep-first deduplication: `df.drop_duplicates()` keeps the first
occurrence of each row, scanning top to bottom. `seen` accumulates the rows
already kept. -/
def dedupAux {α : Type} [DecidableEq α] (seen : List α) : List α → List α
  | [] => []
  | x :: xs => if x ∈ seen then dedupAux seen xs else x :: dedupAux (x :: seen) xs

/-- `df.drop_duplicates()`: remove exact-duplicate rows, keeping first
occurrences in order. -/
def drop_duplicates {α : Type} [DecidableEq α] (l : List α) : List α := dedupAux [] l

/-- Lexicographic string order by code point on the character lists: the
order Python string comparison uses, hence the order `sort_values` and
`groupby(sort=True)` sort by. -/
def strLeChars : List Char → List Char → Bool
  | [], _ => true
  | _ :: _, [] => false
  | a :: as, b :: bs =>
    if a.toNat < b.toNat then true
    else if b.toNat < a.toNat then false
    else strLeChars as bs

/-- Python `<=` on strings. -/
def strLe (a b : String) : Bool := strLeChars a.data b.data

theorem strLeChars_total (as bs : List Char) :
    strLeChars as bs = true ∨ strLeChars bs as = true := by
  induction as generalizing bs with
  | nil => exact Or.inl rfl
  | cons a as ih =>
    cases bs with
    | nil => exact Or.inr rfl
    | cons b bs =>
      by_cases hab : a.toNat < b.toNat
      · exact Or.inl (by simp [strLeChars, hab])
      · by_cases hba : b.toNat < a.toNat
        · exact Or.inr (by simp [strLeChars, hba])
        · rcases ih bs with h | h
          · exact Or.inl (by simp [strLeChars, hab, hba, h])
          · exact Or.inr (by simp [strLeChars, hab, hba, h])

theorem strLeChars_trans (as bs cs : List Char) (h₁ : strLeChars as bs = true)
    (h₂ : strLeChars bs cs = true) : strLeChars as cs = true := by
  induction as generalizing bs cs with
  | nil => rfl
  | cons a as ih =>
    cases bs with
    | nil => simp [strLeChars] at h₁
    | cons b bs =>
      cases cs with
      | nil => simp [strLeChars] at h₂
      | cons c cs =>
        simp only [strLeChars] at h₁ h₂ ⊢
        by_cases hba : b.toNat < a.toNat
        · simp [if_neg (by omega : ¬ a.toNat < b.toNat), hba] at h₁
        · by_cases hcb : c.toNat < b.toNat
          · simp [if_neg (by omega : ¬ b.toNat < c.toNat), hcb] at h₂
          · by_cases hac : a.toNat < c.toNat
            · simp [hac]
            · have hab : ¬ a.toNat < b.toNat := by omega
              have hbc : ¬ b.toNat < c.toNat := by omega
              have hca : ¬ c.toNat < a.toNat := by omega
              simp only [if_neg hab, if_neg hba] at h₁
              simp only [if_neg hbc, if_neg hcb] at h₂
              simp only [if_neg hac, if_neg hca]
              exact ih bs cs h₁ h₂

/-- The `Name` cell of a ledger row `[name, price, brand, date]`. -/
def keyName (row : List String) : String := row.headD ""

/-- The comparison used by `df.sort_values(by='Name')`: order rows by their
`Name` column. -/
def leName (a b : List String) : Prop := strLe (keyName a) (keyName b) = true

instance : DecidableRel leName := fun a b => by
  unfold leName
  infer_instance

instance : IsTotal (List String) leName :=
  ⟨fun a b => strLeChars_total (keyName a).data (keyName b).data⟩

instance : IsTrans (List String) leName :=
  ⟨fun _ _ _ hab hbc => strLeChars_trans _ _ _ hab hbc⟩

/-- The block of rows a single run writes: the consolidated fetched rows
with exact duplicates dropped, sorted by the `Name` column (main.py lines
48-56); `reset_index(drop=True)` changes only the index labels, not the
rows. `sort_values` is modelled by insertion sort: any sort by `Name`
produces a `Name`-sorted permutation, which is all the claims use. -/
def runBlock (fetched : List (List String)) : List (List String) :=
  List.insertionSort leName (drop_duplicates fetched)

/-- `step_1`'s effect on the ledger file's data rows (main.py lines 58-60):
the file is opened in append mode (`'a'`) and `df_sorted.to_csv(f, ...)`
writes the run's block after the existing content; the header row, written
only when `f.tell() == 0`, is not part of the data-row model. The existing
rows `file` are never read or modified. -/
def step_1 (fetched : List (List String)) (file : List (List String)) : List (List String) :=
  file ++ runBlock fetched

/-- Written from the spec's words, for comparison with `step_1` ("each run
unions new observations with existing file content, deduplicates,
re-sorts, and writes the full file back"): the union of the existing file
rows and the new observations, deduplicated and re-sorted as one table. -/
def step_1_specMerge (fetched file : List (List String)) : List (List String) :=
  List.insertionSort leName (drop_duplicates (file ++ fetched))

/-- Number of occurrences of row `r` in a list of rows. -/
def countRow (r : List String) (l : List (List String)) : Nat :=
  l.countP (fun x => decide (x = r))

/-! ### Aggregator (`step_2`, main.py lines 65-68)

`df.groupby('Name')['Price'].apply(list)` groups the ledger rows by the
`Name` column: pandas `groupby` with its default `sort=True` lists the
distinct keys in ascending order, and within each group the `Price` values
keep the ledger's row order. The price type is left abstract (`α`): the
ledger stores whatever `read_csv` produced for the `Price` column. -/

/-- `step_2` on a ledger given as (name, price) pairs in file row order:
one output row per distinct name (keys sorted ascending, as pandas
`groupby` does), carrying the list of that name's prices in row order. -/
def step_2 {α : Type} (rows : List (String × α)) : List (String × List α) :=
  (List.insertionSort (fun a b => strLe a b = true) (drop_duplicates (rows.map Prod.fst))).map
    fun n => (n, (rows.filter (fun r => r.fst == n)).map Prod.snd)

/-! ### Chart renderer (`plot_graph`, main.py lines 70-131)

Row selection (line 82) is `df[df['Name'].str.contains(search_string)]`.
With pandas defaults (`case=True, regex=True`) that treats `search_string`
as a *regular expression* searched anywhere in the name. The regex engine
is embedded for the fragment of patterns built from literal characters and
the metacharacter `.` (match any character): on that fragment the
embedding agrees with Python `re.search`, and every theorem below
quantifies only over it — patterns holding any other `re` metacharacter
(`^ $ * + ? \x7b \x7d [ ] \ | ( )`) are outside the model. -/

/-- A character that is special to Python `re` patterns. -/
def isRegexMeta (c : Char) : Bool :=
  c == '.' || c == '^' || c == '$' || c == '*' || c == '+' || c == '?' ||
  c == '\x7b' || c == '\x7d' || c == '[' || c == ']' || c == '\\' ||
  c == '|' || c == '(' || c == ')'

/-- One token of a compiled pattern: a literal character or `.`. -/
inductive RTok where
  | dot
  | lit (c : Char)
deriving DecidableEq, Repr

/-- Compile a pattern string in the modelled regex fragment: `.` becomes
the any-character token, every other character matches itself. Faithful to
`re` compilation only for patterns whose characters are all
non-metacharacters or `.` — the fragment the theorems stay inside. -/
def compilePat (pat : String) : List RTok :=
  pat.data.map fun c => if c = '.' then RTok.dot else RTok.lit c

/-- Match a compiled pattern against the start of a character list
(Python `re.match` at a fixed position): the pattern must be consumed,
trailing characters are ignored. -/
def matchAt : List RTok → List Char → Bool
  | [], _ => true
  | _ :: _, [] => false
  | t :: ts, c :: cs =>
    (match t with
     | RTok.dot => true
     | RTok.lit d => d == c) && matchAt ts cs

/-- Python `re.search`: the pattern matches at some position of the text. -/
def regexSearch (pat : List RTok) : List Char → Bool
  | [] => matchAt pat []
  | c :: cs => matchAt pat (c :: cs) || regexSearch pat cs

/-- `series.str.contains(search_string)` with pandas defaults: regex
search of the pattern in the text, case-sensitively. Agrees with pandas
exactly when the pattern lies in the literal-plus-`.` fragment of
`compilePat`. -/
def pdStrContains (text : String) (pat : String) : Bool :=
  regexSearch (compilePat pat) text.data

/-- The row selection of `plot_graph` (main.py line 82): keep the aggregate
rows whose `Name` matches the filter. Rows are (Name, Prices-text) pairs as
read from `grouped_product_prices.csv`. -/
def plot_graph_select (search_string : String) (df : List (String × String)) :
    List (String × String) :=
  df.filter fun r => pdStrContains r.fst search_string

/-- Literal substring containment, written from the spec's words
("contains the filter substring, case-sensitive, substring match"): some
left-to-right position of the text starts with `pat`. Used only to compare
the spec's description with `pdStrContains`. -/
def litContainsChars (pat : List Char) : List Char → Bool
  | [] => pat.isPrefixOf []
  | c :: cs => pat.isPrefixOf (c :: cs) || litContainsChars pat cs

/-- Literal substring containment on strings; see `litContainsChars`. -/
def litContains (text : String) (pat : String) : Bool :=
  litContainsChars pat.data text.data

/-! ### Price-text parsing (`plot_graph`, main.py line 85) and the
serialisation it inverts (`step_2`'s `to_csv`).

Line 85 turns the `Prices` cell text back into numbers:
`[float(''.join(y.split(','))) for y in x.strip('[]').split(',')]`.
Python `float` is modelled on the fragment the pipeline produces —
optionally space-padded strings of ASCII decimal digits, whose values are
integers below 2^53 and hence exactly representable — returning `none`
where real `float()` would raise `ValueError`. -/

/-- The ten ASCII digit characters accepted by the modelled `float()`. -/
def isDigitC (c : Char) : Bool :=
  c == '0' || c == '1' || c == '2' || c == '3' || c == '4' ||
  c == '5' || c == '6' || c == '7' || c == '8' || c == '9'

/-- Numeric value of an ASCII digit character. -/
def digitVal (c : Char) : Nat := c.toNat - '0'.toNat

/-- Python `float(s)` on the modelled fragment: strip whitespace; a
nonempty all-digit remainder parses to its decimal value, anything else
raises (`none`). Faithful only while the value stays below `2 ^ 53`:
there the IEEE-754 double `float()` returns is exactly the integer;
beyond that `float()` rounds to the nearest double and this model
diverges, so every theorem built on it carries that bound. -/
def pyFloatChars (l : List Char) : Option Nat :=
  let t := pystripChars l
  if !t.isEmpty && t.all isDigitC then
    some (t.foldl (fun a c => 10 * a + digitVal c) 0)
  else
    none

/-- `float(''.join(y.split(',')))` applied to one piece `y` of the split
price text: joining the comma-split parts removes every comma, then
`float` parses the result. -/
def pieceFloat (y : List Char) : Option Nat := pyFloatChars (removeCommas y)

/-- A character stripped by Python `x.strip('[]')`. -/
def isBracket (c : Char) : Bool := c == '[' || c == ']'

/-- Python `x.strip('[]')`: remove leading and trailing characters drawn
from the set `[`, `]`. -/
def stripBrackets (l : List Char) : List Char :=
  ((l.dropWhile isBracket).reverse.dropWhile isBracket).reverse

/-- Python `s.split(sep)` for a one-character separator: the result always
has one more piece than there are separator occurrences; splitting the
empty string yields `[""]`. -/
def pysplit (sep : Char) : List Char → List (List Char)
  | [] => [[]]
  | c :: cs =>
    match pysplit sep cs with
    | [] => [[]]
    | p :: ps => if c == sep then [] :: p :: ps else (c :: p) :: ps

/-- Run `pieceFloat` over the pieces, failing if any piece fails (the list
comprehension's behaviour). -/
def seqPieces : List (List Char) → Option (List Nat)
  | [] => some []
  | y :: ys =>
    match pieceFloat y, seqPieces ys with
    | some v, some vs => some (v :: vs)
    | _, _ => none

/-- The whole of main.py line 85 for one `Prices` cell: strip the
brackets, split on commas, convert every piece with `float`. The list
comprehension raises on the first failing conversion; `none` models that
raise. -/
def plot_graph_parse (x : String) : Option (List Nat) :=
  seqPieces (pysplit ',' (stripBrackets x.data))

/-- Decimal rendering of a natural number, as Python `str(int)` produces
it: most-significant digit first, `"0"` for zero. Defined from
`Nat.digits` (little-endian digit list) reversed and mapped to digit
characters. -/
def pyStrNat (n : Nat) : List Char :=
  if n = 0 then ['0'] else (Nat.digits 10 n).reverse.map Nat.digitChar

/-- Join the rendered list elements with the `", "` separator Python
`str(list)` places between elements. -/
def joinCommaSpace : List (List Char) → List Char
  | [] => []
  | [p] => p
  | p :: ps => p ++ ',' :: ' ' :: joinCommaSpace ps

/-- The `Prices` cell text `step_2` persists for a group of integer prices:
`to_csv` writes `str(list_of_ints)`, i.e. `[p0, p1, ...]` with `", "`
between elements (read back verbatim by `read_csv` thanks to CSV quoting). -/
def serializePrices (ps : List Nat) : String :=
  ⟨'[' :: joinCommaSpace (ps.map pyStrNat) ++ [']']⟩

/-! ### Gallery builder (`create_html_for_png_files`, main.py lines 133-177) -/

/-- Python `file.endswith('.png')`, on the character lists. -/
def endsWithPng (file : String) : Bool :=
  List.isPrefixOf (".png".data.reverse) file.data.reverse

/-- `os.path.join(directory, file)` for a relative non-empty directory not
ending in a separator, the only shape the program uses (`'results'`). -/
def pathJoin (directory file : String) : String := directory ++ "/" ++ file

/-- The fixed prefix of the generated page: doctype, head, inline CSS and
the opening container tag (main.py lines 138-164). -/
def htmlHeader : String :=
  "<!DOCTYPE html>\n<html>\n<head>\n<title>Plot Gallery</title>\n<style>\nbody \x7b\n    font-family: Arial, sans-serif;\n    background-color: #f4f4f4;\n    margin: 0;\n    padding: 20px;\n\x7d\n.container \x7b\n    max-width: 800px;\n    margin: 0 auto;\n\x7d\nh2 \x7b\n    color: #333;\n\x7d\nimg \x7b\n    display: block;\n    margin: 10px auto;\n    box-shadow: 0px 0px 5px 0px rgba(0,0,0,0.75);\n\x7d\n</style>\n</head>\n<body>\n<div class=\"container\">\n"

/-- The closing tags appended after the per-file fragments (main.py line
173). -/
def htmlFooter : String := "</div>\n</body>\n</html>"

/-- The three lines emitted for one PNG file (main.py lines 167-170): a
heading with the file name, an image reference, a line break. -/
def pngFragment (directory file : String) : String :=
  "<h2>" ++ file ++ "</h2>\n" ++
  "<img src=\"" ++ pathJoin directory file ++ "\" alt=\"" ++ file ++ "\" width=\"800\">\n" ++
  "<br>\n"

/-- `create_html_for_png_files(directory)` as a function of the directory
listing: select the files ending in `.png` (line 135) and build the page
text by folding the fragments onto the header, then closing the tags. The
write of `plot_gallery.html` stores this text. -/
def create_html_for_png_files (listing : List String) (directory : String) : String :=
  ((listing.filter endsWithPng).foldl
    (fun acc f => acc ++ pngFragment directory f) htmlHeader) ++ htmlFooter

/-- Concatenation of a list of strings, in order. -/
def concatStrings : List String → String
  | [] => ""
  | s :: ss => s ++ concatStrings ss

/-- Occurrences of a pattern in a character list, counted at every
position (used to count headings and image tags in the generated page). -/
def countSub (pat : List Char) : List Char → Nat
  | [] => if pat.isPrefixOf ([] : List Char) then 1 else 0
  | c :: cs => (if pat.isPrefixOf (c :: cs) then 1 else 0) + countSub pat cs

/-! ### Entry-point URL configuration (main.py lines 181-194)

The Python list literal holds six string literals but only four commas
between elements: no comma separates the fifth literal (line 191) from the
sixth (line 193), so Python's adjacent-string-literal concatenation fuses
them into one element. `urlA` through `urlF` are the six literals as they
appear in the source; `urls` is the value the literal evaluates to. -/

def urlA : String :=
  "https://www.makro.pro/c/search?q=%E0%B9%80%E0%B8%99%E0%B8%B7%E0%B9%89%E0%B8%AD%E0%B8%9E%E0%B8%B4%E0%B8%84%E0%B8%B2%E0%B8%99%E0%B8%A2%E0%B9%88%E0%B8%B2"

def urlB : String :=
  "https://www.makro.pro/c/search?q=%E0%B9%82%E0%B8%9B%E0%B8%A3%E0%B8%9A%E0%B8%B8%E0%B8%8A%E0%B9%80%E0%B8%8A%E0%B8%AD%E0%B8%A3%E0%B9%8C+%E0%B8%AA%E0%B8%B1%E0%B8%99%E0%B8%99%E0%B8%AD%E0%B8%81"

def urlC : String :=
  "https://www.makro.pro/c/search?q=%E0%B8%AA%E0%B8%B1%E0%B8%99%E0%B8%99%E0%B8%AD%E0%B8%81%E0%B8%A7%E0%B8%B1%E0%B8%A7"

def urlD : String :=
  "https://www.makro.pro/c/search?q=%E0%B8%AA%E0%B8%B1%E0%B8%99%E0%B9%81%E0%B8%AB%E0%B8%A5%E0%B8%A1"

def urlE : String :=
  "https://www.makro.pro/c/search?q=%E0%B9%80%E0%B8%99%E0%B8%B7%E0%B9%89%E0%B8%AD%E0%B8%AA%E0%B8%B1%E0%B8%99%E0%B9%81%E0%B8%AB%E0%B8%A5%E0%B8%A1%E0%B8%A3%E0%B8%B4%E0%B8%9A%E0%B8%AD%E0%B8%B2%E0%B8%A2"

def urlF : String :=
  "https://www.makro.pro/c/search?q=%E0%B9%82%E0%B8%9B%E0%B8%A3%E0%B8%9A%E0%B8%B8%E0%B8%8A%E0%B9%80%E0%B8%8A%E0%B8%AD%E0%B8%A3%E0%B9%8C+%E0%B9%80%E0%B8%99%E0%B8%B7%E0%B9%89%E0%B8%AD+%E0%B8%AA%E0%B8%B1%E0%B8%99%E0%B8%84%E0%B8%AD"

/-- The value of the `urls` list literal: the missing comma makes the
fifth element the concatenation of the fifth and sixth string literals. -/
def urls : List String := [urlA, urlB, urlC, urlD, urlE ++ urlF]

/-! ## Theorems about the embedded pipeline -/

/-- C1: for every URL, a fetch that fails at the network layer or with a
4xx/5xx status makes `scrape_prices` return the empty row list together
with exactly one error-log line; `scrape_prices` is a total function (the
`except` clause catches the raise, so no exception escapes), and the
consolidation loop of `step_1` gets nothing from the failed URL and
continues with the remaining URLs unchanged. -/
theorem scrape_prices_failed_request (url : String) (r : FetchResult)
    (rest : List (String × FetchResult)) (today : String) (h : fetchFails r) :
    (scrape_prices url r).1 = [] ∧ (scrape_prices url r).2.length = 1 ∧
      consolidate ((url, r) :: rest) today = consolidate rest today := by
  have hrows : scrapeBody r = Except.error (match r with
      | .netError msg => msg
      | .response status _ => "HTTPError " ++ toString status) := by
    cases r with
    | netError msg => rfl
    | response status products =>
      have : raisesForStatus status = true := h
      simp [scrapeBody, this]
  refine ⟨?_, ?_, ?_⟩
  · simp [scrape_prices, hrows]
  · simp [scrape_prices, hrows]
  · simp [consolidate, scrape_prices, hrows]

/-- Witness for C1 at a concrete failed fetch. -/
theorem scrape_prices_failed_request_witness :
    (scrape_prices "https://example.test" (.netError "ConnectionError")).1 = [] ∧
      (scrape_prices "https://example.test" (.netError "ConnectionError")).2.length = 1 ∧
      consolidate [("https://example.test", .netError "ConnectionError")] "2024-01-01" =
        consolidate [] "2024-01-01" :=
  scrape_prices_failed_request "https://example.test" (.netError "ConnectionError")
    [] "2024-01-01" trivial

/-- C10: the `urls` literal evaluates to exactly 5 elements, not 6; the
missing comma makes the fifth element the concatenation of the fifth and
sixth intended search-URL literals, and the sixth intended URL is not an
element of the list, so it is never fetched as its own request. -/
theorem urls_missing_comma :
    urls.length = 5 ∧ urls.drop 4 = [urlE ++ urlF] ∧ urlF ∉ urls := by
  refine ⟨rfl, rfl, ?_⟩
  decide

/-! ### Lemmas about deduplication and sorting -/

theorem dedupAux_countP {α : Type} [DecidableEq α] (r : α) (l seen : List α) :
    (dedupAux seen l).countP (fun x => decide (x = r)) =
      if r ∈ l ∧ r ∉ seen then 1 else 0 := by
  induction l generalizing seen with
  | nil => simp [dedupAux]
  | cons x xs ih =>
    by_cases hx : x ∈ seen
    · rw [dedupAux, if_pos hx, ih]
      by_cases hrx : r = x
      · subst hrx
        simp [hx]
      · simp [hrx]
    · rw [dedupAux, if_neg hx, List.countP_cons, ih]
      by_cases hrx : r = x
      · subst hrx
        simp [hx]
      · simp [hrx, Ne.symm hrx]

theorem drop_duplicates_countP {α : Type} [DecidableEq α] (r : α) (l : List α) :
    (drop_duplicates l).countP (fun x => decide (x = r)) = if r ∈ l then 1 else 0 := by
  rw [drop_duplicates, dedupAux_countP]
  simp

theorem mem_dedupAux {α : Type} [DecidableEq α] (r : α) (l seen : List α) :
    r ∈ dedupAux seen l ↔ r ∈ l ∧ r ∉ seen := by
  induction l generalizing seen with
  | nil => simp [dedupAux]
  | cons x xs ih =>
    by_cases hx : x ∈ seen
    · rw [dedupAux, if_pos hx, ih]
      simp only [List.mem_cons]
      by_cases hrx : r = x
      · subst hrx
        simp [hx]
      · simp [hrx]
    · rw [dedupAux, if_neg hx]
      simp only [List.mem_cons, ih, List.mem_cons]
      by_cases hrx : r = x
      · subst hrx
        simp [hx]
      · simp [hrx]

theorem nodup_dedupAux {α : Type} [DecidableEq α] (l seen : List α) :
    (dedupAux seen l).Nodup := by
  induction l generalizing seen with
  | nil => simp [dedupAux]
  | cons x xs ih =>
    by_cases hx : x ∈ seen
    · rw [dedupAux, if_pos hx]
      exact ih seen
    · rw [dedupAux, if_neg hx]
      refine List.Nodup.cons ?_ (ih (x :: seen))
      intro hmem
      exact ((mem_dedupAux x xs (x :: seen)).mp hmem).2 (List.mem_cons_self x seen)

theorem countRow_runBlock (r : List String) (fetched : List (List String)) :
    countRow r (runBlock fetched) = if r ∈ fetched then 1 else 0 := by
  rw [countRow, runBlock, (List.perm_insertionSort leName _).countP_eq,
    drop_duplicates_countP]
  simp

/-- C2: within one run, a row fetched several times is written once: the
run's appended block contains exactly one copy of every fetched row,
whatever the file already holds. Across runs there is no deduplication:
two runs fetching the identical batch leave two copies of each of its rows
in the file. -/
theorem ledger_within_run_dedup_only (fetched file : List (List String))
    (r : List String) (h : r ∈ fetched) :
    countRow r (step_1 fetched file) = countRow r file + 1 ∧
      countRow r (step_1 fetched (step_1 fetched [])) = 2 := by
  have hstep : ∀ g : List (List String),
      countRow r (step_1 fetched g) = countRow r g + 1 := by
    intro g
    rw [step_1, countRow, List.countP_append, ← countRow, ← countRow,
      countRow_runBlock, if_pos h]
  refine ⟨hstep file, ?_⟩
  rw [hstep (step_1 fetched []), hstep [], countRow]
  simp

/-- Witness for C2 at a concrete one-row batch fetched twice in one run. -/
theorem ledger_within_run_dedup_only_witness :
    countRow ["A", "10", "b", "2024-01-01"]
        (step_1 [["A", "10", "b", "2024-01-01"], ["A", "10", "b", "2024-01-01"]]
          [["B", "7", "b", "2024-01-01"]]) =
      countRow ["A", "10", "b", "2024-01-01"] [["B", "7", "b", "2024-01-01"]] + 1 ∧
      countRow ["A", "10", "b", "2024-01-01"]
        (step_1 [["A", "10", "b", "2024-01-01"], ["A", "10", "b", "2024-01-01"]]
          (step_1 [["A", "10", "b", "2024-01-01"], ["A", "10", "b", "2024-01-01"]] [])) = 2 :=
  ledger_within_run_dedup_only
    [["A", "10", "b", "2024-01-01"], ["A", "10", "b", "2024-01-01"]]
    [["B", "7", "b", "2024-01-01"]] ["A", "10", "b", "2024-01-01"] (by decide)

/-- C3 counterexample: `step_1` does not write back the merged,
deduplicated, re-sorted union of file content and new rows. With one prior
row identical to the one fetched row, the merged table would hold one
copy, but the file ends with two. -/
theorem step_1_merge_counterexample :
    step_1 [["A", "10", "b", "2024-01-01"]] [["A", "10", "b", "2024-01-01"]] ≠
      step_1_specMerge [["A", "10", "b", "2024-01-01"]] [["A", "10", "b", "2024-01-01"]] := by
  decide

/-- C3 amended: `step_1` never reads the existing file content back. The
run writes in append mode, so the prior rows stay in place as an untouched
prefix, and what follows them is exactly the run's own block — the new
rows deduplicated and sorted among themselves only. -/
theorem step_1_pure_append (fetched file : List (List String)) :
    (step_1 fetched file).take file.length = file ∧
      (step_1 fetched file).drop file.length =
        List.insertionSort leName (drop_duplicates fetched) ∧
      step_1 fetched file = file ++ runBlock fetched := by
  refine ⟨?_, ?_, rfl⟩
  · rw [step_1, List.take_left]
  · rw [step_1, List.drop_left, runBlock]

/-- C4 counterexample: with prior rows already in the file, the appended
run block destroys the global sort by `Name`: a prior "B" row followed by
this run's "A" row is decreasing. -/
theorem ledger_sorted_counterexample :
    ¬ List.Pairwise leName
        (step_1 [["A", "10", "b", "2024-01-02"]] [["B", "7", "b", "2024-01-01"]]) := by
  decide

/-- C4 amended: the rows a single run appends are non-decreasing by the
`Name` field, and when the file was empty before the run (the first run),
the whole resulting file is non-decreasing by `Name`; with prior content
the guarantee holds only for the appended block
(see `ledger_sorted_counterexample`). -/
theorem run_block_sorted (fetched : List (List String)) :
    List.Pairwise leName (runBlock fetched) ∧
      List.Pairwise leName (step_1 fetched []) := by
  have h := List.sorted_insertionSort leName (drop_duplicates fetched)
  exact ⟨h, by simpa [step_1, runBlock] using h⟩

/-- The first components of `step_2`'s output are the sorted distinct
ledger names. -/
theorem step_2_map_fst {α : Type} (rows : List (String × α)) :
    (step_2 rows).map Prod.fst =
      List.insertionSort (fun a b => strLe a b = true)
        (drop_duplicates (rows.map Prod.fst)) := by
  rw [step_2, List.map_map]
  exact List.map_id _

/-- C5: `step_2` emits exactly one output row per distinct ledger name —
the name column of the output is duplicate-free and carries exactly the
names occurring in the ledger — and the `Prices` entry of each output row
is the sequence of that name's `Price` values in ledger row order; on the
ledger `("A",10), ("A",20), ("B",5)` the output is exactly
`A ↦ [10, 20], B ↦ [5]`. -/
theorem step_2_one_row_per_name (rows : List (String × Nat)) (n : String)
    (ps : List Nat) (h : (n, ps) ∈ step_2 rows) :
    ((step_2 rows).map Prod.fst).Nodup ∧
      ((step_2 rows).map Prod.fst).toFinset = (rows.map Prod.fst).toFinset ∧
      ps = (rows.filter (fun r => r.fst == n)).map Prod.snd ∧
      step_2 [("A", 10), ("A", 20), ("B", 5)] = [("A", [10, 20]), ("B", [5])] := by
  refine ⟨?_, ?_, ?_, by decide⟩
  · rw [step_2_map_fst]
    exact ((List.perm_insertionSort _ _).nodup_iff).mpr
      (nodup_dedupAux (rows.map Prod.fst) [])
  · ext m
    rw [List.mem_toFinset, List.mem_toFinset, step_2_map_fst,
      List.mem_insertionSort, drop_duplicates, mem_dedupAux]
    simp
  · rcases List.mem_map.mp h with ⟨m, _, heq⟩
    rcases Prod.mk.injEq .. ▸ heq with ⟨hm, hps⟩
    rw [← hps, hm]

/-- Witness for C5 on the concrete three-row ledger of the claim. -/
theorem step_2_one_row_per_name_witness :
    ((step_2 [("A", 10), ("A", 20), ("B", 5)]).map Prod.fst).Nodup ∧
      ((step_2 [("A", 10), ("A", 20), ("B", 5)]).map Prod.fst).toFinset =
        ([("A", 10), ("A", 20), ("B", 5)].map Prod.fst).toFinset ∧
      ([10, 20] : List Nat) =
        ([("A", 10), ("A", 20), ("B", 5)].filter (fun r => r.fst == "A")).map Prod.snd ∧
      step_2 [("A", 10), ("A", 20), ("B", 5)] = [("A", [10, 20]), ("B", [5])] :=
  step_2_one_row_per_name [("A", 10), ("A", 20), ("B", 5)] "A" [10, 20] (by decide)

/-- A pattern of literal tokens matches at a position exactly when it is a
prefix of the remaining text. -/
theorem matchAt_lit (cs s : List Char) :
    matchAt (cs.map RTok.lit) s = cs.isPrefixOf s := by
  induction cs generalizing s with
  | nil => cases s <;> rfl
  | cons c cs ih =>
    cases s with
    | nil => rfl
    | cons d ds => simp [matchAt, List.isPrefixOf, ih]

/-- Searching a pattern of literal tokens is literal substring
containment. -/
theorem regexSearch_lit (cs s : List Char) :
    regexSearch (cs.map RTok.lit) s = litContainsChars cs s := by
  induction s with
  | nil => rw [regexSearch, litContainsChars, matchAt_lit]
  | cons d ds ih => rw [regexSearch, litContainsChars, matchAt_lit, ih]

/-- A pattern without the `.` metacharacter compiles to literal tokens
only. -/
theorem compilePat_nodot (pat : String) (h : ∀ c ∈ pat.data, c ≠ '.') :
    compilePat pat = pat.data.map RTok.lit := by
  rw [compilePat]
  exact List.map_congr_left fun c hc => if_neg (h c hc)

/-- C6 counterexample: `str.contains` treats the filter as a regular
expression, not a literal substring. With filter `"A.B"`, the row named
`"AxB"` is selected into the data series although its name does not
contain the literal substring `"A.B"`. -/
theorem plot_graph_select_regex_counterexample :
    pdStrContains "AxB" "A.B" = true ∧ litContains "AxB" "A.B" = false ∧
      plot_graph_select "A.B" [("AxB", "[1]")] = [("AxB", "[1]")] := by
  decide

/-- C6 amended: the filter string is interpreted as a regular expression
(pandas `str.contains` default), case-sensitively. Only for filter strings
free of regex metacharacters (`. ^ $ * + ? \x7b \x7d [ ] \ | ( )`) —
which keeps the filter inside the faithfully embedded fragment, every
character a literal — does the selection coincide with case-sensitive
literal substring containment of the filter in the `Name`. The configured
Thai filter strings contain no metacharacter. -/
theorem plot_graph_select_literal (s : String) (df : List (String × String))
    (h : ∀ c ∈ s.data, isRegexMeta c = false) :
    plot_graph_select s df = df.filter (fun r => litContains r.fst s) := by
  have hnd : ∀ c ∈ s.data, c ≠ '.' := by
    intro c hc heq
    subst heq
    exact absurd (h '.' hc) (by decide)
  rw [plot_graph_select]
  apply List.filter_congr
  intro r _
  rw [pdStrContains, litContains, compilePat_nodot s hnd, regexSearch_lit]

/-- Witness for C6 on the claim's own example: filter `"Wagyu"` against
`"Wagyu Sirloin"` and `"Pork Belly"`. -/
theorem plot_graph_select_literal_witness :
    plot_graph_select "Wagyu" [("Wagyu Sirloin", "[10]"), ("Pork Belly", "[5]")] =
      [("Wagyu Sirloin", "[10]"), ("Pork Belly", "[5]")].filter
        (fun r => litContains r.fst "Wagyu") :=
  plot_graph_select_literal "Wagyu" [("Wagyu Sirloin", "[10]"), ("Pork Belly", "[5]")]
    (by decide)

/-- C7: thousands-separator normalisation. The fetcher emits `"1,234"` as
`"1234"` and, in general, every emitted price text is comma-free; the
chart renderer's piece conversion `float(''.join(y.split(',')))` turns
both the raw text `"1,234"` and the fetcher's comma-free `"1234"` into
the numeric value 1234. -/
theorem price_comma_normalization :
    emitPrice "1,234" = "1234" ∧
      pyFloatChars "1234".data = some 1234 ∧
      pieceFloat "1,234".data = some 1234 ∧
      ∀ s : String, (emitPrice s).data.count ',' = 0 := by
  refine ⟨by decide, by decide, by decide, ?_⟩
  intro s
  rw [List.count_eq_zero]
  simp [emitPrice, removeCommas]

/-- Folding string fragments onto an initial string concatenates them in
order after it. -/
theorem foldl_append_concat {α : Type} (g : α → String) (l : List α) (init : String) :
    l.foldl (fun acc f => acc ++ g f) init = init ++ concatStrings (l.map g) := by
  induction l generalizing init with
  | nil => simp [concatStrings]
  | cons x xs ih =>
    rw [List.map_cons, concatStrings, List.foldl_cons, ih, String.append_assoc]

set_option maxRecDepth 100000 in
/-- C8: the generated gallery page is the fixed header, then — in listing
order — exactly one fragment per file whose name ends in `.png`, each
fragment being one heading plus one image reference plus a line break,
then the closing tags; files not ending in `.png` contribute nothing. On
a listing of exactly `a.png` and `b.png` the page contains exactly two
`<h2>` headings and two `<img` references, and adding a non-PNG file to
the listing leaves the page unchanged. -/
theorem create_html_png_gallery (files : List String) (directory : String) :
    create_html_for_png_files files directory =
      htmlHeader ++
        concatStrings ((files.filter endsWithPng).map (pngFragment directory)) ++
        htmlFooter ∧
      countSub "<h2>".data
        (create_html_for_png_files ["a.png", "b.png"] "results").data = 2 ∧
      countSub "<img".data
        (create_html_for_png_files ["a.png", "b.png"] "results").data = 2 ∧
      create_html_for_png_files ["a.png", "c.txt", "b.png"] directory =
        create_html_for_png_files ["a.png", "b.png"] directory := by
  refine ⟨?_, by decide, by decide, rfl⟩
  rw [create_html_for_png_files, foldl_append_concat]

/-! ### Lemmas for the serialisation round trip (C9) -/

theorem digitChar_isDigitC (d : Nat) (hd : d < 10) :
    isDigitC (Nat.digitChar d) = true := by
  interval_cases d <;> decide

theorem digitVal_digitChar (d : Nat) (hd : d < 10) :
    digitVal (Nat.digitChar d) = d := by
  interval_cases d <;> decide

theorem isDigitC_cases (c : Char) (h : isDigitC c = true) :
    c = '0' ∨ c = '1' ∨ c = '2' ∨ c = '3' ∨ c = '4' ∨
      c = '5' ∨ c = '6' ∨ c = '7' ∨ c = '8' ∨ c = '9' := by
  have h' := h
  simp only [isDigitC, Bool.or_eq_true, beq_iff_eq] at h'
  tauto

theorem isDigitC_not_ws (c : Char) (h : isDigitC c = true) : isWs c = false := by
  rcases isDigitC_cases c h with h | h | h | h | h | h | h | h | h | h <;> subst h <;> decide

theorem isDigitC_not_comma (c : Char) (h : isDigitC c = true) : (c == ',') = false := by
  rcases isDigitC_cases c h with h | h | h | h | h | h | h | h | h | h <;> subst h <;> decide

theorem isDigitC_not_bracket (c : Char) (h : isDigitC c = true) : isBracket c = false := by
  rcases isDigitC_cases c h with h | h | h | h | h | h | h | h | h | h <;> subst h <;> decide

theorem dropWhile_of_forall_false {p : Char → Bool} {l : List Char}
    (h : ∀ c ∈ l, p c = false) : l.dropWhile p = l := by
  cases l with
  | nil => rfl
  | cons c cs => simp [List.dropWhile_cons, h c (List.mem_cons_self c cs)]

theorem pystripChars_of_digits (l : List Char) (h : ∀ c ∈ l, isDigitC c = true) :
    pystripChars l = l := by
  rw [pystripChars, dropWhile_of_forall_false (fun c hc => isDigitC_not_ws c (h c hc)),
    dropWhile_of_forall_false
      (fun c hc => isDigitC_not_ws c (h c (List.mem_reverse.mp hc))),
    List.reverse_reverse]

theorem pystripChars_space (l : List Char) :
    pystripChars (' ' :: l) = pystripChars l := by
  rw [pystripChars, pystripChars, List.dropWhile_cons]
  norm_num [isWs]

theorem removeCommas_of_no_comma (l : List Char) (h : ∀ c ∈ l, (c == ',') = false) :
    removeCommas l = l := by
  rw [removeCommas]
  exact List.filter_eq_self.mpr fun c hc => by simp [h c hc]

theorem pyStrNat_all_digits (n : Nat) : ∀ c ∈ pyStrNat n, isDigitC c = true := by
  intro c hc
  rw [pyStrNat] at hc
  by_cases hn : n = 0
  · rw [if_pos hn] at hc
    rcases List.mem_singleton.mp hc with rfl
    decide
  · rw [if_neg hn] at hc
    rcases List.mem_map.mp hc with ⟨d, hd, rfl⟩
    exact digitChar_isDigitC d
      (Nat.digits_lt_base (by norm_num) (List.mem_reverse.mp hd))

theorem pyStrNat_ne_nil (n : Nat) : pyStrNat n ≠ [] := by
  rw [pyStrNat]
  by_cases hn : n = 0
  · rw [if_pos hn]
    simp
  · rw [if_neg hn]
    simp [Nat.digits_ne_nil_iff_ne_zero.mpr hn]

theorem foldl_digits_val (L : List Nat) (hL : ∀ d ∈ L, d < 10) (a : Nat) :
    (L.reverse.map Nat.digitChar).foldl (fun acc c => 10 * acc + digitVal c) a =
      a * 10 ^ L.length + Nat.ofDigits 10 L := by
  induction L generalizing a with
  | nil => simp
  | cons d L ih =>
    rw [List.reverse_cons, List.map_append, List.foldl_append,
      ih (fun e he => hL e (List.mem_cons_of_mem d he)), List.map_cons,
      List.map_nil, List.foldl_cons, List.foldl_nil,
      digitVal_digitChar d (hL d (List.mem_cons_self d L)), Nat.ofDigits_cons,
      List.length_cons]
    ring

theorem pyFloatChars_digits (l : List Char) (h : ∀ c ∈ l, isDigitC c = true)
    (hne : l ≠ []) :
    pyFloatChars l = some (l.foldl (fun a c => 10 * a + digitVal c) 0) := by
  rw [pyFloatChars]
  simp only [pystripChars_of_digits l h]
  rw [if_pos]
  simp [List.isEmpty_iff, hne, List.all_eq_true.mpr h]

theorem pyFloatChars_pyStrNat (n : Nat) : pyFloatChars (pyStrNat n) = some n := by
  by_cases hn : n = 0
  · subst hn
    decide
  · rw [pyFloatChars_digits (pyStrNat n) (pyStrNat_all_digits n) (pyStrNat_ne_nil n),
      pyStrNat, if_neg hn, foldl_digits_val _ (fun d hd => Nat.digits_lt_base (by norm_num) hd)]
    simp [Nat.ofDigits_digits]

theorem pieceFloat_pyStrNat (n : Nat) : pieceFloat (pyStrNat n) = some n := by
  rw [pieceFloat,
    removeCommas_of_no_comma _ (fun c hc => isDigitC_not_comma c (pyStrNat_all_digits n c hc)),
    pyFloatChars_pyStrNat]

theorem pieceFloat_space_pyStrNat (n : Nat) : pieceFloat (' ' :: pyStrNat n) = some n := by
  have hnc : ∀ c ∈ ' ' :: pyStrNat n, (c == ',') = false := by
    intro c hc
    rcases List.mem_cons.mp hc with rfl | hc
    · decide
    · exact isDigitC_not_comma c (pyStrNat_all_digits n c hc)
  rw [pieceFloat, removeCommas_of_no_comma _ hnc, pyFloatChars, pystripChars_space,
    pystripChars_of_digits _ (pyStrNat_all_digits n)]
  have := pyFloatChars_pyStrNat n
  rw [pyFloatChars, pystripChars_of_digits _ (pyStrNat_all_digits n)] at this
  exact this

theorem pysplit_ne_nil (sep : Char) (l : List Char) : pysplit sep l ≠ [] := by
  cases l with
  | nil => simp [pysplit]
  | cons c cs =>
    rw [pysplit]
    rcases h : pysplit sep cs with _ | ⟨p, ps⟩
    · simp
    · by_cases hc : c == sep <;> simp [hc]

theorem pysplit_no_sep (sep : Char) (a : List Char)
    (h : ∀ c ∈ a, (c == sep) = false) : pysplit sep a = [a] := by
  induction a with
  | nil => rfl
  | cons c cs ih =>
    rw [pysplit, ih (fun e he => h e (List.mem_cons_of_mem c he)),
      h c (List.mem_cons_self c cs)]
    simp

theorem pysplit_append_sep (sep : Char) (a r : List Char)
    (h : ∀ c ∈ a, (c == sep) = false) :
    pysplit sep (a ++ sep :: r) = a :: pysplit sep r := by
  induction a with
  | nil =>
    rcases hr : pysplit sep r with _ | ⟨p, ps⟩
    · exact absurd hr (pysplit_ne_nil sep r)
    · simp [pysplit, hr]
  | cons c cs ih =>
    rw [List.cons_append, pysplit,
      ih (fun e he => h e (List.mem_cons_of_mem c he)),
      h c (List.mem_cons_self c cs)]
    simp

theorem pysplit_cons_no_sep (sep c : Char) (l : List Char) (hc : (c == sep) = false) :
    pysplit sep (c :: l) =
      (c :: (pysplit sep l).headD []) :: (pysplit sep l).tail := by
  rw [pysplit]
  rcases hl : pysplit sep l with _ | ⟨p, ps⟩
  · exact absurd hl (pysplit_ne_nil sep l)
  · simp [hc]

theorem stripBrackets_wrap (l : List Char) (hne : l ≠ [])
    (h : ∀ c ∈ l, isBracket c = false) :
    stripBrackets ('[' :: l ++ [']']) = l := by
  rcases l with _ | ⟨c, cs⟩
  · exact absurd rfl hne
  · have h1 : List.dropWhile isBracket ('[' :: ((c :: cs) ++ [']'])) =
        (c :: cs) ++ [']'] := by
      simp only [List.dropWhile_cons, show isBracket '[' = true from by decide,
        List.cons_append, h c (List.mem_cons_self c cs)]
      simp
    have h2 : List.dropWhile isBracket ((c :: cs) ++ [']']).reverse =
        (c :: cs).reverse := by
      rw [List.reverse_append]
      simp only [List.reverse_singleton, List.singleton_append, List.dropWhile_cons,
        show isBracket ']' = true from by decide]
      simp only [if_true]
      exact dropWhile_of_forall_false (fun e he => h e (List.mem_reverse.mp he))
    show ((List.dropWhile isBracket
        ('[' :: ((c :: cs) ++ [']']))).reverse.dropWhile isBracket).reverse = c :: cs
    rw [h1, h2, List.reverse_reverse]

theorem joinCommaSpace_ne_nil (x : List Char) (xs : List (List Char)) (hx : x ≠ []) :
    joinCommaSpace (x :: xs) ≠ [] := by
  cases xs with
  | nil => simpa [joinCommaSpace] using hx
  | cons y ys =>
    rcases x with _ | ⟨a, as⟩
    · exact absurd rfl hx
    · simp [joinCommaSpace]

theorem joinCommaSpace_no_brackets (pieces : List (List Char))
    (h : ∀ p ∈ pieces, ∀ c ∈ p, isDigitC c = true) :
    ∀ c ∈ joinCommaSpace pieces, isBracket c = false := by
  induction pieces with
  | nil => simp [joinCommaSpace]
  | cons p ps ih =>
    cases ps with
    | nil =>
      intro c hc
      have hc' : c ∈ p := hc
      exact isDigitC_not_bracket c (h p (List.mem_cons_self p []) c hc')
    | cons q qs =>
      intro c hc
      have hc' : c ∈ p ++ ',' :: ' ' :: joinCommaSpace (q :: qs) := hc
      rcases List.mem_append.mp hc' with hcp | hcr
      · exact isDigitC_not_bracket c (h p (List.mem_cons_self p (q :: qs)) c hcp)
      · rcases List.mem_cons.mp hcr with rfl | hcr
        · decide
        · rcases List.mem_cons.mp hcr with rfl | hcr
          · decide
          · exact ih (fun r hr => h r (List.mem_cons_of_mem p hr)) c hcr

theorem pysplit_joinCommaSpace (x : List Char) (xs : List (List Char))
    (hx : ∀ c ∈ x, (c == ',') = false)
    (hxs : ∀ p ∈ xs, ∀ c ∈ p, (c == ',') = false) :
    pysplit ',' (joinCommaSpace (x :: xs)) = x :: xs.map (fun p => ' ' :: p) := by
  induction xs generalizing x with
  | nil => simpa [joinCommaSpace] using pysplit_no_sep ',' x hx
  | cons y ys ih =>
    have hjoin : joinCommaSpace (x :: y :: ys) =
        x ++ ',' :: ' ' :: joinCommaSpace (y :: ys) := rfl
    rw [hjoin, pysplit_append_sep ',' x _ hx, pysplit_cons_no_sep ',' ' ' _ (by decide),
      ih y (hxs y (List.mem_cons_self y ys)) (fun p hp => hxs p (List.mem_cons_of_mem y hp))]
    simp

theorem seqPieces_map_space (rest : List Nat) :
    seqPieces (rest.map (fun k => ' ' :: pyStrNat k)) = some rest := by
  induction rest with
  | nil => rfl
  | cons k ks ih => simp [seqPieces, pieceFloat_space_pyStrNat, ih]

/-- C9: serialisation by `step_2` followed by the price parse of
`plot_graph` is a round trip on all-numeric price groups: for every
nonempty list of natural-number prices (the comma-free digit strings the
fetcher emits, read as integers), each below `2 ^ 53` so that the double
produced by Python `float()` is exactly the integer, parsing the
serialised `Prices` cell recovers exactly the original sequence. -/
theorem step_2_plot_graph_roundtrip (ps : List Nat) (h : ps ≠ [])
    (hdouble : ∀ p ∈ ps, p < 2 ^ 53) :
    plot_graph_parse (serializePrices ps) = some ps := by
  rcases ps with _ | ⟨p0, rest⟩
  · exact absurd rfl h
  · have hdigits : ∀ p ∈ (p0 :: rest).map pyStrNat, ∀ c ∈ p, isDigitC c = true := by
      intro p hp c hc
      rcases List.mem_map.mp hp with ⟨k, _, rfl⟩
      exact pyStrNat_all_digits k c hc
    have hdata : (serializePrices (p0 :: rest)).data =
        '[' :: joinCommaSpace ((p0 :: rest).map pyStrNat) ++ [']'] := rfl
    rw [plot_graph_parse, hdata, List.map_cons,
      stripBrackets_wrap _
        (joinCommaSpace_ne_nil (pyStrNat p0) (rest.map pyStrNat) (pyStrNat_ne_nil p0))
        (joinCommaSpace_no_brackets _ (List.map_cons pyStrNat p0 rest ▸ hdigits)),
      pysplit_joinCommaSpace (pyStrNat p0) (rest.map pyStrNat)
        (fun c hc => isDigitC_not_comma c (pyStrNat_all_digits p0 c hc))
        (fun p hp c hc => isDigitC_not_comma c (by
          rcases List.mem_map.mp hp with ⟨k, _, rfl⟩
          exact pyStrNat_all_digits k c hc)),
      List.map_map,
      show List.map ((fun p => ' ' :: p) ∘ pyStrNat) rest =
          List.map (fun k => ' ' :: pyStrNat k) rest from
        List.map_congr_left (fun k _ => rfl)]
    simp [seqPieces, pieceFloat_pyStrNat, seqPieces_map_space]

/-- Witness for C9 on the concrete price group `[10, 20]`. -/
theorem step_2_plot_graph_roundtrip_witness :
    plot_graph_parse (serializePrices [10, 20]) = some [10, 20] :=
  step_2_plot_graph_roundtrip [10, 20] (by decide) (by decide)

end Picanha
